import Mathlib

/-!
Verification of the CineExplorer denormalization pipeline
(`scripts/phase2_mongodb/build_movies_complete.py`,
`MovieCompleteBuilderFast.build_movies_complete`).

The Python pipeline drains eight source collections, builds insertion-ordered
dictionaries keyed by movie or person identifier, assembles one composite
document per movie record, drops the destination collection and writes the
documents in batches of 1000.

Python `dict`s are insertion-ordered maps: assignment to an existing key
updates the value in place (keeping its position), assignment to a fresh key
appends it at the end.  We embed them as association lists together with an
`upsert` operation that has exactly those semantics, and `lookup` returning
the first (with `upsert` discipline: the unique) binding of a key.
-/

namespace CineExplorer

/-- Association-list embedding of a Python dict: binding update keeps the
position of an existing key, a fresh key is appended at the end. -/
def upsert {β : Type} (m : List (String × β)) (key : String) (val : β) :
    List (String × β) :=
  match m with
  | [] => [(key, val)]
  | (a, b) :: rest =>
    if a = key then (key, val) :: rest else (a, b) :: upsert rest key val

/-- Dict lookup (`d[k]` / `k in d` / `d.get(k, default)`): first binding of the
key, if any. -/
def lookup {β : Type} (m : List (String × β)) (key : String) : Option β :=
  match m with
  | [] => none
  | (a, b) :: rest => if a = key then some b else lookup rest key

/-! Section: Source data model

One structure per source collection, with the fields actually read by the
builder (the Mongo projections in the script).  The three movie fields read
with raw indexing in the Python source can in principle be absent from a
stored record; `movie_id` is the record's key and is always present, while
`primary_title` and `start_year` are read with `movie[...]` (raising `KeyError`
when absent) and `runtime_minutes` with `movie.get(...)` (yielding `None`).
Absence of a field is embedded as `Option.none`.  Rating averages are only
ever copied, never computed with, so their value domain is embedded as `Rat`. -/

structure MovieRow where
  movie_id : String
  primary_title : Option String
  start_year : Option Int
  runtime_minutes : Option Int
deriving DecidableEq

structure RatingRow where
  movie_id : String
  average_rating : Option Rat
  num_votes : Int
deriving DecidableEq

structure GenreRow where
  movie_id : String
  genre : String
deriving DecidableEq

structure PersonRow where
  person_id : String
  name : String
deriving DecidableEq

/-- A row of the `directors`, `principals` or `writers` collection: the
builder reads only `movie_id` and `person_id` from all three. -/
structure MoviePersonRow where
  movie_id : String
  person_id : String
deriving DecidableEq

structure CharacterRow where
  movie_id : String
  person_id : String
  name : String
deriving DecidableEq

/-- The eight source collections, each as the finite sequence of rows its
cursor yields, in cursor order. -/
structure Source where
  movies : List MovieRow
  ratings : List RatingRow
  genres : List GenreRow
  persons : List PersonRow
  directors : List MoviePersonRow
  principals : List MoviePersonRow
  characters : List CharacterRow
  writers : List MoviePersonRow

/-! Section: Output data model -/

structure RatingInfo where
  average : Option Rat
  votes : Int
deriving DecidableEq

structure PersonRef where
  person_id : String
  name : String
deriving DecidableEq

structure CastEntry where
  person_id : String
  name : String
  characters : List String
deriving DecidableEq

/-- One assembled `movies_complete` document (step 8 of the script). -/
structure CompleteDoc where
  _id : String
  title : String
  year : Int
  runtime : Option Int
  rating : RatingInfo
  genres : List String
  directors : List PersonRef
  cast : List CastEntry
  writers : List PersonRef
deriving DecidableEq

/-! Section: Index construction (steps 2 to 7 of the script) -/

/-- Step 2: `ratings_dict[movie_id] = {average, votes}` for every rating row,
in cursor order; duplicate keys are overwritten (last row wins). -/
def ratingsDict (rows : List RatingRow) : List (String × RatingInfo) :=
  rows.foldl
    (fun d r => upsert d r.movie_id ⟨r.average_rating, r.num_votes⟩) []

/-- Shared shape of steps 3, 5 and 7: per row, append one value to the list
at the row's key (`if key not in dict: dict[key] = []` then `append`). -/
def accumDict {ρ β : Type} (key : ρ → String) (val : ρ → β) (rows : List ρ) :
    List (String × List β) :=
  rows.foldl
    (fun d r => upsert d (key r) ((lookup d (key r)).getD [] ++ [val r]))
    []

/-- Step 3: `genres_dict[movie_id]` accumulates the genres of each movie in
cursor order (`if movie_id not in dict: dict[movie_id] = []` then `append`). -/
def genresDict (rows : List GenreRow) : List (String × List String) :=
  accumDict (fun g => g.movie_id) (fun g => g.genre) rows

/-- Step 4: `persons_dict[person_id] = name`, duplicate keys overwritten. -/
def personsDict (rows : List PersonRow) : List (String × String) :=
  rows.foldl (fun d p => upsert d p.person_id p.name) []

/-- Person-name resolution: `persons_dict.get(person_id, "Unknown")`. -/
def resolve (pd : List (String × String)) (pid : String) : String :=
  (lookup pd pid).getD "Unknown"

/-- Steps 5 and 7 share this shape: `dict[movie_id]` accumulates
`{person_id, name: persons_dict.get(person_id, "Unknown")}` entries in cursor
order.  Used for both `directors_dict` and `writers_dict`. -/
def personListDict (pd : List (String × String)) (rows : List MoviePersonRow) :
    List (String × List PersonRef) :=
  accumDict (fun r => r.movie_id)
    (fun r => (⟨r.person_id, resolve pd r.person_id⟩ : PersonRef)) rows

/-- The per-movie cast table: an inner dict keyed by `person_id`. -/
def CastDict : Type := List (String × List (String × CastEntry))

/-- Step 6a, one principal row: ensure `cast_dict[movie_id]` exists, then add
a `{person_id, name, characters: []}` entry for a person id not yet present. -/
def addPrincipal (pd : List (String × String)) (d : CastDict)
    (p : MoviePersonRow) : CastDict :=
  let inner := (lookup d p.movie_id).getD []
  let inner' :=
    if (lookup inner p.person_id).isSome then inner
    else upsert inner p.person_id ⟨p.person_id, resolve pd p.person_id, []⟩
  upsert d p.movie_id inner'

/-- Step 6b, one character row: when a cast entry for the row's
(movie, person) pair exists, append the character name to its `characters`
list; otherwise leave the table unchanged. -/
def addChar (d : CastDict) (c : CharacterRow) : CastDict :=
  match lookup d c.movie_id with
  | none => d
  | some inner =>
    match lookup inner c.person_id with
    | none => d
    | some e =>
      upsert d c.movie_id
        (upsert inner c.person_id { e with characters := e.characters ++ [c.name] })

/-- Step 6: drain principals, then drain characters. -/
def castDict (pd : List (String × String)) (principals : List MoviePersonRow)
    (characters : List CharacterRow) : CastDict :=
  characters.foldl addChar (principals.foldl (addPrincipal pd) [])

/-- Composite lookup into the cast table. -/
def lookup2 (d : CastDict) (mid pid : String) : Option CastEntry :=
  (lookup d mid).bind (fun inner => lookup inner pid)

/-- Invariant of the cast table: after draining the principals and an initial
segment `processed` of the characters stream, every inner table has
pairwise-distinct person keys, and the entry stored under `(mid, pid)`
carries that pair's identity, the resolved name, and the character names of
all processed rows for that exact pair, in stream order. -/
def castEntriesOk (pd : List (String × String)) (processed : List CharacterRow)
    (d : CastDict) : Prop :=
  ∀ mid inner, lookup d mid = some inner →
    (inner.map Prod.fst).Nodup ∧
    ∀ pid e, lookup inner pid = some e →
      e.person_id = pid ∧ e.name = resolve pd pid ∧
      e.characters =
        (processed.filter
          (fun c => c.movie_id = mid ∧ c.person_id = pid)).map (fun c => c.name)


/-! Section: Document assembly (step 8) -/

/-- The five indices plus the person map, as built before step 8. -/
structure Indexes where
  rd : List (String × RatingInfo)
  gd : List (String × List String)
  dd : List (String × List PersonRef)
  cd : CastDict
  wd : List (String × List PersonRef)

def buildIndexes (src : Source) : Indexes :=
  let pd := personsDict src.persons
  { rd := ratingsDict src.ratings
    gd := genresDict src.genres
    dd := personListDict pd src.directors
    cd := castDict pd src.principals src.characters
    wd := personListDict pd src.writers }

/-- Assembly of one document.  `movie["primary_title"]` and
`movie["start_year"]` raise `KeyError` on an absent field (embedded as
`Except.error`); `movie.get("runtime_minutes")` yields `None`.  Every index
lookup falls back to the document's default (`{average: None, votes: 0}`,
`[]`). -/
def assembleDoc (ix : Indexes) (m : MovieRow) : Except String CompleteDoc :=
  match m.primary_title with
  | none => .error "KeyError: primary_title"
  | some t =>
    match m.start_year with
    | none => .error "KeyError: start_year"
    | some y =>
      .ok
        { _id := m.movie_id
          title := t
          year := y
          runtime := m.runtime_minutes
          rating := (lookup ix.rd m.movie_id).getD ⟨none, 0⟩
          genres := (lookup ix.gd m.movie_id).getD []
          directors := (lookup ix.dd m.movie_id).getD []
          cast := ((lookup ix.cd m.movie_id).getD []).map Prod.snd
          writers := (lookup ix.wd m.movie_id).getD [] }

/-- The step-8 loop: one document per movie record, stopping at the first
raised error. -/
def assembleAll (ix : Indexes) : List MovieRow → Except String (List CompleteDoc)
  | [] => .ok []
  | m :: ms =>
    match assembleDoc ix m with
    | .error e => .error e
    | .ok d =>
      match assembleAll ix ms with
      | .error e => .error e
      | .ok ds => .ok (d :: ds)

/-- The whole assembly phase (steps 1 to 8): indices from the source, then one
document per movie record. -/
def buildAll (src : Source) : Except String (List CompleteDoc) :=
  assembleAll (buildIndexes src) src.movies

/-! Section: Bulk load (step 9) -/

/-- The insertion batch size of step 9 (`batch_size = 1000`). -/
def batchSize : Nat := 1000

/-- Fuel-driven worker for `chunks`; the fuel is an upper bound on the list
length, so the fallback branch is never taken in `chunks` itself. -/
def chunksGo {α : Type} (bs : Nat) : Nat → List α → List (List α)
  | _, [] => []
  | 0, l => [l]
  | fuel + 1, x :: xs => (x :: xs.take (bs - 1)) :: chunksGo bs fuel (xs.drop (bs - 1))

/-- The slices `docs[i : i + bs]` for `i = 0, bs, 2*bs, ...` produced by the
step-9 loop (for positive `bs`; the script uses `bs = 1000`). -/
def chunks {α : Type} (bs : Nat) (l : List α) : List (List α) :=
  chunksGo bs l.length l

/-- One observable effect on the destination collection. -/
inductive StoreEvent where
  | drop : StoreEvent
  | insertMany : List CompleteDoc → StoreEvent

/-- Step 9 as the sequence of destination-store operations it performs:
`movies_complete.drop()`, then one `insert_many` per batch of 1000, in
assembly order. -/
def loaderEvents (docs : List CompleteDoc) : List StoreEvent :=
  StoreEvent.drop :: (chunks batchSize docs).map StoreEvent.insertMany

/-- Effect of one store operation on the destination collection contents. -/
def applyEvent (store : List CompleteDoc) : StoreEvent → List CompleteDoc
  | .drop => []
  | .insertMany b => store ++ b

def runEvents (store : List CompleteDoc) (es : List StoreEvent) :
    List CompleteDoc :=
  es.foldl applyEvent store

/-- One full run against a destination collection holding `store`: if assembly
raises, the run aborts before the drop and the store is untouched; otherwise
the loader drops the collection and writes all batches. -/
def runPipeline (src : Source) (store : List CompleteDoc) : List CompleteDoc :=
  match buildAll src with
  | .error _ => store
  | .ok docs => runEvents store (loaderEvents docs)

/-! Section: Concrete document shape

BSON-like values, used to state field-name-exact properties of the produced
documents (the Python documents are dicts with string keys, in literal
order). -/

inductive Value where
  | null : Value
  | str : String → Value
  | int : Int → Value
  | num : Rat → Value
  | arr : List Value → Value
  | obj : List (String × Value) → Value

def optIntValue : Option Int → Value
  | none => .null
  | some n => .int n

def optRatValue : Option Rat → Value
  | none => .null
  | some q => .num q

def RatingInfo.toValue (r : RatingInfo) : Value :=
  .obj [("average", optRatValue r.average), ("votes", .int r.votes)]

def PersonRef.toValue (p : PersonRef) : Value :=
  .obj [("person_id", .str p.person_id), ("name", .str p.name)]

def CastEntry.toValue (e : CastEntry) : Value :=
  .obj [("person_id", .str e.person_id), ("name", .str e.name),
        ("characters", .arr (e.characters.map Value.str))]

/-- The document rendered with its literal field names, in the key order of
the `complete_doc` dict literal of the script. -/
def CompleteDoc.toValue (d : CompleteDoc) : Value :=
  .obj [("_id", .str d._id), ("title", .str d.title), ("year", .int d.year),
        ("runtime", optIntValue d.runtime), ("rating", d.rating.toValue),
        ("genres", .arr (d.genres.map Value.str)),
        ("directors", .arr (d.directors.map PersonRef.toValue)),
        ("cast", .arr (d.cast.map CastEntry.toValue)),
        ("writers", .arr (d.writers.map PersonRef.toValue))]

/-- Field names of an object value. -/
def Value.keys : Value → List String
  | .obj fields => fields.map Prod.fst
  | _ => []

/-! Section: Concrete sources used to instantiate the verified properties -/

/-- The concrete one-movie scenario of the spec (testable property list,
last item). -/
def srcC5 : Source :=
  { movies := [⟨"m1", some "Alpha", some 2000, some 100⟩]
    ratings := [⟨"m1", some 8.5, 1000⟩]
    genres := [⟨"m1", "Drama"⟩]
    persons := [⟨"p1", "A. Actor"⟩, ⟨"p2", "B. Director"⟩]
    directors := [⟨"m1", "p2"⟩]
    principals := [⟨"m1", "p1"⟩]
    characters := [⟨"m1", "p1", "Hero"⟩, ⟨"m1", "p1", "Narrator"⟩]
    writers := [] }

/-- The document the pipeline assembles from `srcC5`. -/
def docC5 : CompleteDoc :=
  { _id := "m1", title := "Alpha", year := 2000, runtime := some 100
    rating := ⟨some 8.5, 1000⟩
    genres := ["Drama"]
    directors := [⟨"p2", "B. Director"⟩]
    cast := [⟨"p1", "A. Actor", ["Hero", "Narrator"]⟩]
    writers := [] }

/-- The scenario output document exactly as the spec sentence claims it,
with the document key under the field name `id`. -/
def claimedValueC5 : Value :=
  .obj [("id", .str "m1"), ("title", .str "Alpha"), ("year", .int 2000),
        ("runtime", .int 100),
        ("rating", .obj [("average", .num 8.5), ("votes", .int 1000)]),
        ("genres", .arr [.str "Drama"]),
        ("directors",
          .arr [.obj [("person_id", .str "p2"), ("name", .str "B. Director")]]),
        ("cast",
          .arr [.obj [("person_id", .str "p1"), ("name", .str "A. Actor"),
                      ("characters", .arr [.str "Hero", .str "Narrator"])]]),
        ("writers", .arr [])]

/-- The scenario output document as the code produces it: identical to
`claimedValueC5` except that the document key field is named `_id`. -/
def builtValueC5 : Value :=
  .obj [("_id", .str "m1"), ("title", .str "Alpha"), ("year", .int 2000),
        ("runtime", .int 100),
        ("rating", .obj [("average", .num 8.5), ("votes", .int 1000)]),
        ("genres", .arr [.str "Drama"]),
        ("directors",
          .arr [.obj [("person_id", .str "p2"), ("name", .str "B. Director")]]),
        ("cast",
          .arr [.obj [("person_id", .str "p1"), ("name", .str "A. Actor"),
                      ("characters", .arr [.str "Hero", .str "Narrator"])]]),
        ("writers", .arr [])]

/-- A one-movie source with no association rows at all and no runtime. -/
def srcNoAssoc : Source :=
  { movies := [⟨"m2", some "Beta", some 1999, none⟩]
    ratings := [], genres := [], persons := [], directors := []
    principals := [], characters := [], writers := [] }

/-- The document the pipeline assembles from `srcNoAssoc`. -/
def docNoAssoc : CompleteDoc :=
  { _id := "m2", title := "Beta", year := 1999, runtime := none
    rating := ⟨none, 0⟩, genres := [], directors := [], cast := []
    writers := [] }

/-- A one-movie source whose association rows all reference the person id
`p9`, absent from the (empty) persons relation. -/
def srcOrphan : Source :=
  { movies := [⟨"m2", some "Beta", some 1999, none⟩]
    ratings := [], genres := [], persons := []
    directors := [⟨"m2", "p9"⟩]
    principals := [⟨"m2", "p9"⟩]
    characters := []
    writers := [⟨"m2", "p9"⟩] }

/-- The document the pipeline assembles from `srcOrphan`. -/
def docOrphan : CompleteDoc :=
  { _id := "m2", title := "Beta", year := 1999, runtime := none
    rating := ⟨none, 0⟩, genres := []
    directors := [⟨"p9", "Unknown"⟩]
    cast := [⟨"p9", "Unknown", []⟩]
    writers := [⟨"p9", "Unknown"⟩] }

/-- A one-movie, one-person cast table used to instantiate the second-pass
properties. -/
def castD6 : CastDict := [("m1", [("p1", ⟨"p1", "A. Actor", []⟩)])]


/-! Section: Association-list lemmas -/

theorem lookup_upsert_self {β : Type} (m : List (String × β)) (k : String) (v : β) :
    lookup (upsert m k v) k = some v := by
  induction m with
  | nil => simp [upsert, lookup]
  | cons p rest ih =>
    obtain ⟨a, b⟩ := p
    by_cases h : a = k
    · simp [upsert, lookup, h]
    · simp [upsert, lookup, h, ih]

theorem lookup_upsert_ne {β : Type} (m : List (String × β)) (k k' : String) (v : β)
    (h : k ≠ k') : lookup (upsert m k v) k' = lookup m k' := by
  induction m with
  | nil => simp [upsert, lookup, h]
  | cons p rest ih =>
    obtain ⟨a, b⟩ := p
    by_cases ha : a = k
    · subst ha; simp [upsert, lookup, h]
    · simp only [upsert, lookup, if_neg ha]
      by_cases ha' : a = k'
      · simp [ha']
      · simp [ha', ih]

theorem keys_upsert {β : Type} (m : List (String × β)) (k : String) (v : β) :
    (upsert m k v).map Prod.fst =
      if (lookup m k).isSome then m.map Prod.fst else m.map Prod.fst ++ [k] := by
  induction m with
  | nil => simp [upsert, lookup]
  | cons p rest ih =>
    obtain ⟨a, b⟩ := p
    by_cases h : a = k
    · simp [upsert, lookup, h]
    · simp only [upsert, lookup, if_neg h, List.map_cons]
      rw [ih]
      by_cases hs : (lookup rest k).isSome <;> simp [hs]

theorem lookup_isSome_iff {β : Type} (m : List (String × β)) (k : String) :
    (lookup m k).isSome ↔ k ∈ m.map Prod.fst := by
  induction m with
  | nil => simp [lookup]
  | cons p rest ih =>
    obtain ⟨a, b⟩ := p
    by_cases h : a = k
    · simp [lookup, h]
    · simp [lookup, h, ih, Ne.symm h]

theorem lookup_eq_none_iff {β : Type} (m : List (String × β)) (k : String) :
    lookup m k = none ↔ k ∉ m.map Prod.fst := by
  rw [← lookup_isSome_iff, Option.isSome_iff_exists]
  cases lookup m k <;> simp

theorem mem_of_lookup_eq_some {β : Type} {m : List (String × β)} {k : String}
    {v : β} (h : lookup m k = some v) : (k, v) ∈ m := by
  induction m with
  | nil => simp [lookup] at h
  | cons p rest ih =>
    obtain ⟨a, b⟩ := p
    by_cases ha : a = k
    · subst ha
      simp [lookup] at h
      subst h
      exact List.mem_cons_self _ _
    · simp only [lookup, if_neg ha] at h
      exact List.mem_cons_of_mem _ (ih h)

theorem lookup_eq_some_of_mem {β : Type} {m : List (String × β)} {k : String}
    {v : β} (hnd : (m.map Prod.fst).Nodup) (h : (k, v) ∈ m) :
    lookup m k = some v := by
  induction m with
  | nil => simp at h
  | cons p rest ih =>
    obtain ⟨a, b⟩ := p
    simp only [List.map_cons, List.nodup_cons] at hnd
    rcases List.mem_cons.mp h with h1 | h1
    · rw [Prod.mk.injEq] at h1
      obtain ⟨rfl, rfl⟩ := h1
      simp [lookup]
    · have hak : a ≠ k := by
        intro heq
        subst heq
        exact hnd.1 (List.mem_map.mpr ⟨(a, v), h1, rfl⟩)
      simp [lookup, hak, ih hnd.2 h1]

/-! Section: Batching lemmas -/

theorem chunksGo_fuel {α : Type} (bs : Nat) :
    ∀ (f f' : Nat) (l : List α), l.length ≤ f → l.length ≤ f' →
      chunksGo bs f l = chunksGo bs f' l := by
  intro f
  induction f with
  | zero =>
    intro f' l hf _
    have : l = [] := List.eq_nil_of_length_eq_zero (Nat.le_zero.mp hf)
    subst this
    cases f' <;> simp [chunksGo]
  | succ g ih =>
    intro f' l hf hf'
    cases l with
    | nil => cases f' <;> simp [chunksGo]
    | cons x xs =>
      cases f' with
      | zero => simp at hf'
      | succ g' =>
        simp only [chunksGo]
        congr 1
        have hd : (xs.drop (bs - 1)).length ≤ xs.length := by
          rw [List.length_drop]; omega
        have h1 : xs.length + 1 ≤ g + 1 := by simpa using hf
        have h2 : xs.length + 1 ≤ g' + 1 := by simpa using hf'
        exact ih g' _ (by omega) (by omega)

theorem chunks_nil {α : Type} (bs : Nat) : chunks bs ([] : List α) = [] := rfl

theorem chunks_cons {α : Type} (bs : Nat) (x : α) (xs : List α) :
    chunks bs (x :: xs) =
      (x :: xs.take (bs - 1)) :: chunks bs (xs.drop (bs - 1)) := by
  simp only [chunks, List.length_cons, chunksGo]
  congr 1
  apply chunksGo_fuel
  · rw [List.length_drop]; omega
  · exact Nat.le_refl _

theorem chunks_flatten {α : Type} (bs : Nat) (l : List α) :
    (chunks bs l).flatten = l := by
  suffices h : ∀ (n : Nat) (l : List α), l.length ≤ n → (chunks bs l).flatten = l from
    h l.length l (Nat.le_refl _)
  intro n
  induction n with
  | zero =>
    intro l hl
    have : l = [] := List.eq_nil_of_length_eq_zero (Nat.le_zero.mp hl)
    subst this
    simp [chunks_nil]
  | succ n ih =>
    intro l hl
    cases l with
    | nil => simp [chunks_nil]
    | cons x xs =>
      rw [chunks_cons]
      simp only [List.flatten_cons]
      rw [ih (xs.drop (bs - 1)) (by rw [List.length_drop]; simp at hl; omega)]
      simp



/-! Section: Characterization of the accumulating dictionaries (steps 3, 5, 7) -/

theorem accumDict_go {ρ β : Type} (key : ρ → String) (val : ρ → β)
    (rows : List ρ) (acc : List (String × List β)) (k : String) :
    (lookup
      (rows.foldl
        (fun d r => upsert d (key r) ((lookup d (key r)).getD [] ++ [val r])) acc)
      k).getD [] =
      (lookup acc k).getD [] ++ (rows.filter (fun r => key r = k)).map val := by
  induction rows generalizing acc with
  | nil => simp
  | cons r rs ih =>
    simp only [List.foldl_cons]
    rw [ih]
    by_cases h : key r = k
    · rw [List.filter_cons_of_pos (by simp [h]), h, lookup_upsert_self]
      simp
    · rw [List.filter_cons_of_neg (by simp [h]), lookup_upsert_ne _ _ _ _ h]

theorem accumDict_getD {ρ β : Type} (key : ρ → String) (val : ρ → β)
    (rows : List ρ) (k : String) :
    (lookup (accumDict key val rows) k).getD [] =
      (rows.filter (fun r => key r = k)).map val := by
  rw [accumDict, accumDict_go]
  simp [lookup]

theorem genresDict_getD (rows : List GenreRow) (k : String) :
    (lookup (genresDict rows) k).getD [] =
      (rows.filter (fun g => g.movie_id = k)).map (fun g => g.genre) :=
  accumDict_getD _ _ rows k

theorem personListDict_getD (pd : List (String × String))
    (rows : List MoviePersonRow) (k : String) :
    (lookup (personListDict pd rows) k).getD [] =
      (rows.filter (fun r => r.movie_id = k)).map
        (fun r => (⟨r.person_id, resolve pd r.person_id⟩ : PersonRef)) :=
  accumDict_getD _ _ rows k

/-! Section: Characterization of the rating index (step 2) -/

theorem ratingsDict_go (rows : List RatingRow) (acc : List (String × RatingInfo))
    (k : String) :
    lookup
      (rows.foldl
        (fun d r => upsert d r.movie_id ⟨r.average_rating, r.num_votes⟩) acc)
      k =
      ((rows.filter (fun r => r.movie_id = k)).getLast?).elim (lookup acc k)
        (fun r => some ⟨r.average_rating, r.num_votes⟩) := by
  induction rows generalizing acc with
  | nil => simp
  | cons r rs ih =>
    simp only [List.foldl_cons]
    rw [ih]
    by_cases h : r.movie_id = k
    · rw [List.filter_cons_of_pos (by simp [h])]
      cases hl : rs.filter (fun r => decide (r.movie_id = k)) with
      | nil =>
        rw [h, lookup_upsert_self]
        simp
      | cons q qs =>
        rw [List.getLast?_cons_cons]
        cases hg : (q :: qs).getLast? with
        | none => simp [List.getLast?_eq_none_iff] at hg
        | some last => simp
    · rw [List.filter_cons_of_neg (by simp [h]), lookup_upsert_ne _ _ _ _ h]

theorem ratingsDict_lookup (rows : List RatingRow) (k : String) :
    lookup (ratingsDict rows) k =
      ((rows.filter (fun r => r.movie_id = k)).getLast?).map
        (fun r => (⟨r.average_rating, r.num_votes⟩ : RatingInfo)) := by
  rw [ratingsDict, ratingsDict_go]
  cases (rows.filter (fun r => r.movie_id = k)).getLast? <;> simp [lookup]

/-! Section: Characterization of the person map (step 4) -/

theorem personsDict_go_not_mem (rows : List PersonRow)
    (acc : List (String × String)) (pid : String)
    (h : ∀ p ∈ rows, p.person_id ≠ pid) :
    lookup (rows.foldl (fun d p => upsert d p.person_id p.name) acc) pid =
      lookup acc pid := by
  induction rows generalizing acc with
  | nil => simp
  | cons p ps ih =>
    simp only [List.foldl_cons]
    rw [ih _ (fun q hq => h q (List.mem_cons_of_mem _ hq)),
      lookup_upsert_ne _ _ _ _ (h p (List.mem_cons_self _ _))]

theorem resolve_not_mem (rows : List PersonRow) (pid : String)
    (h : ∀ p ∈ rows, p.person_id ≠ pid) :
    resolve (personsDict rows) pid = "Unknown" := by
  rw [resolve, personsDict, personsDict_go_not_mem rows [] pid h]
  simp [lookup]


/-! Section: Cast assembler invariant (step 6)

After draining the principals and an initial segment `processed` of the
characters stream, every inner table of the cast dictionary has pairwise-distinct person
keys, and the entry stored under `(mid, pid)` carries exactly that pair's
identity, the resolved name, and the character names of all processed rows for
that exact pair, in stream order. -/

theorem castEntriesOk_getD (pd : List (String × String))
    (processed : List CharacterRow) (d : CastDict)
    (h : castEntriesOk pd processed d) (mid : String) :
    ((((lookup d mid).getD []).map Prod.fst).Nodup) ∧
    ∀ pid e, lookup ((lookup d mid).getD []) pid = some e →
      e.person_id = pid ∧ e.name = resolve pd pid ∧
      e.characters =
        (processed.filter
          (fun c => c.movie_id = mid ∧ c.person_id = pid)).map (fun c => c.name) := by
  cases hl : lookup d mid with
  | none => simp [lookup]
  | some inner => exact h mid inner hl

theorem addPrincipal_preserves (pd : List (String × String)) (d : CastDict)
    (p : MoviePersonRow) (h : castEntriesOk pd [] d) :
    castEntriesOk pd [] (addPrincipal pd d p) := by
  intro mid inner hinner
  by_cases hm : p.movie_id = mid
  · subst hm
    rw [addPrincipal, lookup_upsert_self] at hinner
    obtain ⟨hnd0, hent0⟩ := castEntriesOk_getD pd [] d h p.movie_id
    by_cases hs : (lookup ((lookup d p.movie_id).getD []) p.person_id).isSome
    · rw [if_pos hs] at hinner
      obtain rfl := Option.some.injEq .. ▸ hinner
      exact ⟨hnd0, hent0⟩
    · rw [if_neg hs] at hinner
      obtain rfl := Option.some.injEq .. ▸ hinner
      constructor
      · rw [keys_upsert, if_neg hs]
        refine List.Nodup.append hnd0 (List.nodup_singleton _) ?_
        intro a ha hb
        rw [List.mem_singleton] at hb
        subst hb
        exact hs (by rw [lookup_isSome_iff]; exact ha)
      · intro pid e he
        by_cases hp : p.person_id = pid
        · subst hp
          rw [lookup_upsert_self] at he
          obtain rfl := Option.some.injEq .. ▸ he
          exact ⟨rfl, rfl, by simp⟩
        · rw [lookup_upsert_ne _ _ _ _ hp] at he
          exact hent0 pid e he
  · rw [addPrincipal, lookup_upsert_ne _ _ _ _ hm] at hinner
    exact h mid inner hinner

theorem castEntriesOk_principals (pd : List (String × String))
    (rows : List MoviePersonRow) (acc : CastDict)
    (h : castEntriesOk pd [] acc) :
    castEntriesOk pd [] (rows.foldl (addPrincipal pd) acc) := by
  induction rows generalizing acc with
  | nil => exact h
  | cons p ps ih => exact ih _ (addPrincipal_preserves pd acc p h)

theorem char_filter_other (processed : List CharacterRow) (c : CharacterRow)
    (mid pid : String) (h : ¬ (c.movie_id = mid ∧ c.person_id = pid)) :
    ((processed ++ [c]).filter
      (fun x => x.movie_id = mid ∧ x.person_id = pid)).map (fun x => x.name) =
      (processed.filter
        (fun x => x.movie_id = mid ∧ x.person_id = pid)).map (fun x => x.name) := by
  rw [List.filter_append, List.filter_cons_of_neg (by simpa using h)]
  simp

theorem char_filter_self (processed : List CharacterRow) (c : CharacterRow)
    (mid pid : String) (h : c.movie_id = mid ∧ c.person_id = pid) :
    ((processed ++ [c]).filter
      (fun x => x.movie_id = mid ∧ x.person_id = pid)).map (fun x => x.name) =
      (processed.filter
        (fun x => x.movie_id = mid ∧ x.person_id = pid)).map (fun x => x.name)
        ++ [c.name] := by
  rw [List.filter_append, List.filter_cons_of_pos (by simpa using h)]
  simp

theorem addChar_none {d : CastDict} {c : CharacterRow}
    (h : lookup2 d c.movie_id c.person_id = none) : addChar d c = d := by
  unfold addChar
  split
  · rfl
  · next inner hm =>
    split
    · rfl
    · next e hp =>
      rw [lookup2, hm] at h
      simp [hp] at h

theorem addChar_some {d : CastDict} {c : CharacterRow}
    {inner : List (String × CastEntry)} {e : CastEntry}
    (hm : lookup d c.movie_id = some inner)
    (hp : lookup inner c.person_id = some e) :
    addChar d c =
      upsert d c.movie_id
        (upsert inner c.person_id
          { e with characters := e.characters ++ [c.name] }) := by
  unfold addChar
  split
  · next hm' => rw [hm'] at hm; exact Option.noConfusion hm
  · next inner' hm' =>
    rw [hm'] at hm
    obtain rfl := Option.some.inj hm
    split
    · next hp' => rw [hp'] at hp; exact Option.noConfusion hp
    · next e' hp' =>
      rw [hp'] at hp
      obtain rfl := Option.some.inj hp
      rfl

theorem addChar_preserves (pd : List (String × String))
    (processed : List CharacterRow) (d : CastDict) (c : CharacterRow)
    (h : castEntriesOk pd processed d) :
    castEntriesOk pd (processed ++ [c]) (addChar d c) := by
  cases hmp : lookup2 d c.movie_id c.person_id with
  | none =>
    rw [addChar_none hmp]
    intro mid inner hinner
    obtain ⟨hnd, hent⟩ := h mid inner hinner
    refine ⟨hnd, fun pid e he => ?_⟩
    obtain ⟨h1, h2, h3⟩ := hent pid e he
    refine ⟨h1, h2, ?_⟩
    have hcond : ¬ (c.movie_id = mid ∧ c.person_id = pid) := by
      rintro ⟨hcm, hcp⟩
      rw [lookup2, hcm, hinner, Option.some_bind'] at hmp
      rw [hcp, he] at hmp
      exact Option.noConfusion hmp
    rw [char_filter_other _ _ _ _ hcond]
    exact h3
  | some e0 =>
    obtain ⟨inner0, hm, hp⟩ := Option.bind_eq_some.mp hmp
    rw [addChar_some hm hp]
    intro mid inner hinner
    by_cases hmid : c.movie_id = mid
    · subst hmid
      rw [lookup_upsert_self] at hinner
      obtain rfl := Option.some.injEq .. ▸ hinner
      obtain ⟨hnd0, hent0⟩ := h c.movie_id inner0 hm
      constructor
      · rw [keys_upsert, if_pos (by rw [hp]; rfl)]
        exact hnd0
      · intro pid e he
        by_cases hpid : c.person_id = pid
        · subst hpid
          rw [lookup_upsert_self] at he
          obtain rfl := Option.some.injEq .. ▸ he
          obtain ⟨h1, h2, h3⟩ := hent0 c.person_id e0 hp
          refine ⟨h1, h2, ?_⟩
          rw [char_filter_self _ _ _ _ ⟨rfl, rfl⟩, h3]
        · rw [lookup_upsert_ne _ _ _ _ hpid] at he
          obtain ⟨h1, h2, h3⟩ := hent0 pid e he
          refine ⟨h1, h2, ?_⟩
          rw [char_filter_other _ _ _ _ (fun hc => hpid hc.2)]
          exact h3
    · rw [lookup_upsert_ne _ _ _ _ hmid] at hinner
      obtain ⟨hnd, hent⟩ := h mid inner hinner
      refine ⟨hnd, fun pid e he => ?_⟩
      obtain ⟨h1, h2, h3⟩ := hent pid e he
      refine ⟨h1, h2, ?_⟩
      rw [char_filter_other _ _ _ _ (fun hc => hmid hc.1)]
      exact h3

theorem castEntriesOk_chars (pd : List (String × String))
    (cs : List CharacterRow) (processed : List CharacterRow) (acc : CastDict)
    (h : castEntriesOk pd processed acc) :
    castEntriesOk pd (processed ++ cs) (cs.foldl addChar acc) := by
  induction cs generalizing processed acc with
  | nil => simpa using h
  | cons c cs ih =>
    have step := ih (processed ++ [c]) (addChar acc c)
      (addChar_preserves pd processed acc c h)
    simpa using step

theorem castDict_ok (pd : List (String × String))
    (principals : List MoviePersonRow) (characters : List CharacterRow) :
    castEntriesOk pd characters (castDict pd principals characters) := by
  have h0 : castEntriesOk pd [] ([] : CastDict) := by
    intro mid inner hinner
    simp [lookup] at hinner
  have h1 := castEntriesOk_principals pd principals [] h0
  have h2 := castEntriesOk_chars pd characters [] _ h1
  simpa [castDict] using h2


/-! Section: Cast table domain lemmas -/

theorem lookup_upsert_isSome_mono {β : Type} (m : List (String × β))
    (k k' : String) (v : β) (h : (lookup m k').isSome) :
    (lookup (upsert m k v) k').isSome := by
  by_cases hk : k = k'
  · subst hk
    rw [lookup_upsert_self]
    rfl
  · rw [lookup_upsert_ne _ _ _ _ hk]
    exact h

theorem addPrincipal_self (pd : List (String × String)) (d : CastDict)
    (p : MoviePersonRow) :
    (lookup2 (addPrincipal pd d p) p.movie_id p.person_id).isSome := by
  rw [lookup2, addPrincipal, lookup_upsert_self, Option.some_bind']
  by_cases hs : (lookup ((lookup d p.movie_id).getD []) p.person_id).isSome
  · rw [if_pos hs]
    exact hs
  · rw [if_neg hs, lookup_upsert_self]
    rfl

theorem addPrincipal_mono (pd : List (String × String)) (d : CastDict)
    (p : MoviePersonRow) (mid pid : String)
    (h : (lookup2 d mid pid).isSome) :
    (lookup2 (addPrincipal pd d p) mid pid).isSome := by
  by_cases hm : p.movie_id = mid
  · subst hm
    rw [lookup2, addPrincipal, lookup_upsert_self, Option.some_bind']
    rw [lookup2] at h
    cases hl : lookup d p.movie_id with
    | none => rw [hl] at h; simp at h
    | some inner =>
      rw [hl, Option.some_bind'] at h
      simp only [hl, Option.getD_some]
      by_cases hs : (lookup inner p.person_id).isSome
      · rw [if_pos hs]
        exact h
      · rw [if_neg hs]
        exact lookup_upsert_isSome_mono _ _ _ _ h
  · rw [lookup2, addPrincipal, lookup_upsert_ne _ _ _ _ hm]
    exact h

theorem addChar_mono (d : CastDict) (c : CharacterRow) (mid pid : String)
    (h : (lookup2 d mid pid).isSome) :
    (lookup2 (addChar d c) mid pid).isSome := by
  cases hmp : lookup2 d c.movie_id c.person_id with
  | none =>
    rw [addChar_none hmp]
    exact h
  | some e =>
    obtain ⟨inner0, hm, hp⟩ := Option.bind_eq_some.mp hmp
    rw [addChar_some hm hp]
    by_cases hmid : c.movie_id = mid
    · subst hmid
      rw [lookup2, lookup_upsert_self, Option.some_bind']
      rw [lookup2, hm, Option.some_bind'] at h
      exact lookup_upsert_isSome_mono _ _ _ _ h
    · rw [lookup2, lookup_upsert_ne _ _ _ _ hmid]
      exact h

theorem castDict_principal_isSome (pd : List (String × String))
    (principals : List MoviePersonRow) (characters : List CharacterRow)
    (p : MoviePersonRow) (hp : p ∈ principals) :
    (lookup2 (castDict pd principals characters) p.movie_id p.person_id).isSome := by
  have h1 : ∀ (rows : List MoviePersonRow) (acc : CastDict),
      p ∈ rows ∨ (lookup2 acc p.movie_id p.person_id).isSome →
      (lookup2 (rows.foldl (addPrincipal pd) acc) p.movie_id p.person_id).isSome := by
    intro rows
    induction rows with
    | nil =>
      intro acc h
      rcases h with h | h
      · simp at h
      · exact h
    | cons q qs ih =>
      intro acc h
      apply ih
      rcases h with h | h
      · rcases List.mem_cons.mp h with rfl | h2
        · exact Or.inr (addPrincipal_self pd acc p)
        · exact Or.inl h2
      · exact Or.inr (addPrincipal_mono pd acc q _ _ h)
  have h2 : ∀ (cs : List CharacterRow) (acc : CastDict),
      (lookup2 acc p.movie_id p.person_id).isSome →
      (lookup2 (cs.foldl addChar acc) p.movie_id p.person_id).isSome := by
    intro cs
    induction cs with
    | nil => intro acc h; exact h
    | cons c cs ih => intro acc h; exact ih _ (addChar_mono acc c _ _ h)
  exact h2 _ _ (h1 _ _ (Or.inl hp))

theorem addPrincipal_lookup_ne (pd : List (String × String)) (d : CastDict)
    (p : MoviePersonRow) (mid : String) (h : p.movie_id ≠ mid) :
    lookup (addPrincipal pd d p) mid = lookup d mid := by
  rw [addPrincipal, lookup_upsert_ne _ _ _ _ h]

theorem addChar_lookup_none (d : CastDict) (c : CharacterRow) (mid : String)
    (h : lookup d mid = none) : lookup (addChar d c) mid = none := by
  cases hmp : lookup2 d c.movie_id c.person_id with
  | none =>
    rw [addChar_none hmp]
    exact h
  | some e =>
    obtain ⟨inner0, hm, hp⟩ := Option.bind_eq_some.mp hmp
    rw [addChar_some hm hp]
    have hne : c.movie_id ≠ mid := by
      intro heq
      rw [heq, h] at hm
      exact Option.noConfusion hm
    rw [lookup_upsert_ne _ _ _ _ hne]
    exact h

theorem castDict_lookup_none (pd : List (String × String))
    (principals : List MoviePersonRow) (characters : List CharacterRow)
    (mid : String) (h : ∀ p ∈ principals, p.movie_id ≠ mid) :
    lookup (castDict pd principals characters) mid = none := by
  have h1 : ∀ (rows : List MoviePersonRow) (acc : CastDict),
      (∀ p ∈ rows, p.movie_id ≠ mid) → lookup acc mid = none →
      lookup (rows.foldl (addPrincipal pd) acc) mid = none := by
    intro rows
    induction rows with
    | nil => intro acc _ ha; exact ha
    | cons q qs ih =>
      intro acc hr ha
      refine ih _ (fun p hp => hr p (List.mem_cons_of_mem _ hp)) ?_
      rw [addPrincipal_lookup_ne _ _ _ _ (hr q (List.mem_cons_self _ _))]
      exact ha
  have h2 : ∀ (cs : List CharacterRow) (acc : CastDict),
      lookup acc mid = none → lookup (cs.foldl addChar acc) mid = none := by
    intro cs
    induction cs with
    | nil => intro acc ha; exact ha
    | cons c cs ih => intro acc ha; exact ih _ (addChar_lookup_none _ _ _ ha)
  exact h2 _ _ (h1 _ _ h rfl)

/-! Section: Assembly lemmas (step 8) -/

theorem assembleDoc_ok_iff (ix : Indexes) (m : MovieRow) :
    (∃ d, assembleDoc ix m = .ok d) ↔
      m.primary_title ≠ none ∧ m.start_year ≠ none := by
  cases ht : m.primary_title <;> cases hy : m.start_year <;>
    simp [assembleDoc, ht, hy]

theorem assembleAll_length (ix : Indexes) (ms : List MovieRow)
    (ds : List CompleteDoc) (h : assembleAll ix ms = .ok ds) :
    ds.length = ms.length := by
  induction ms generalizing ds with
  | nil =>
    simp only [assembleAll] at h
    obtain rfl := Except.ok.inj h
    rfl
  | cons m ms ih =>
    simp only [assembleAll] at h
    split at h
    · exact Except.noConfusion h
    · split at h
      · exact Except.noConfusion h
      · next ds' hds =>
        obtain rfl := Except.ok.inj h
        simp [ih ds' hds]

theorem assembleAll_get (ix : Indexes) (ms : List MovieRow)
    (ds : List CompleteDoc) (h : assembleAll ix ms = .ok ds) :
    ∀ i (hi : i < ms.length) (hd : i < ds.length),
      assembleDoc ix (ms.get ⟨i, hi⟩) = .ok (ds.get ⟨i, hd⟩) := by
  induction ms generalizing ds with
  | nil => intro i hi; simp at hi
  | cons m ms ih =>
    simp only [assembleAll] at h
    split at h
    · exact Except.noConfusion h
    · next d hd0 =>
      split at h
      · exact Except.noConfusion h
      · next ds' hds =>
        obtain rfl := Except.ok.inj h
        intro i hi hdl
        cases i with
        | zero => simpa using hd0
        | succ j =>
          exact ih ds' hds j (by simpa using hi) (by simpa using hdl)

theorem assembleAll_mem (ix : Indexes) (ms : List MovieRow)
    (ds : List CompleteDoc) (h : assembleAll ix ms = .ok ds)
    (d : CompleteDoc) (hd : d ∈ ds) :
    ∃ m, m ∈ ms ∧ assembleDoc ix m = .ok d := by
  induction ms generalizing ds with
  | nil =>
    simp only [assembleAll] at h
    obtain rfl := Except.ok.inj h
    simp at hd
  | cons m ms ih =>
    simp only [assembleAll] at h
    split at h
    · exact Except.noConfusion h
    · next d0 hd0 =>
      split at h
      · exact Except.noConfusion h
      · next ds' hds =>
        obtain rfl := Except.ok.inj h
        rcases List.mem_cons.mp hd with rfl | hmem
        · exact ⟨m, List.mem_cons_self _ _, hd0⟩
        · obtain ⟨m', hm', ha⟩ := ih ds' hds hmem
          exact ⟨m', List.mem_cons_of_mem _ hm', ha⟩

theorem assembleAll_ok_iff (ix : Indexes) (ms : List MovieRow) :
    (∃ ds, assembleAll ix ms = .ok ds) ↔
      ∀ m ∈ ms, m.primary_title ≠ none ∧ m.start_year ≠ none := by
  induction ms with
  | nil => simp [assembleAll]
  | cons m ms ih =>
    constructor
    · rintro ⟨ds, h⟩
      simp only [assembleAll] at h
      split at h
      · exact Except.noConfusion h
      · next d hd =>
        split at h
        · exact Except.noConfusion h
        · next ds' hds =>
          intro m' hm'
          rcases List.mem_cons.mp hm' with rfl | hmem
          · exact (assembleDoc_ok_iff ix m').mp ⟨d, hd⟩
          · exact (ih.mp ⟨ds', hds⟩) m' hmem
    · intro hall
      obtain ⟨d, hd⟩ :=
        (assembleDoc_ok_iff ix m).mpr (hall m (List.mem_cons_self _ _))
      obtain ⟨ds', hds⟩ :=
        ih.mpr (fun m' hm' => hall m' (List.mem_cons_of_mem _ hm'))
      exact ⟨d :: ds', by simp only [assembleAll, hd, hds]⟩

/-! Section: Loader lemmas (step 9) -/

theorem foldl_insertMany (bs : List (List CompleteDoc))
    (acc : List CompleteDoc) :
    (bs.map StoreEvent.insertMany).foldl applyEvent acc = acc ++ bs.flatten := by
  induction bs generalizing acc with
  | nil => simp
  | cons b bs ih => simp [applyEvent, ih]

theorem runEvents_loader (store docs : List CompleteDoc) :
    runEvents store (loaderEvents docs) = docs := by
  rw [loaderEvents, runEvents, List.foldl_cons]
  have hdrop : applyEvent store StoreEvent.drop = [] := rfl
  rw [hdrop, foldl_insertMany, chunks_flatten]
  rfl

theorem chunks_mem_length {α : Type} (bs : Nat) (hbs : 0 < bs) (l : List α) :
    ∀ b ∈ chunks bs l, b ≠ [] ∧ b.length ≤ bs := by
  suffices h : ∀ (n : Nat) (l : List α), l.length ≤ n →
      ∀ b ∈ chunks bs l, b ≠ [] ∧ b.length ≤ bs from
    h l.length l (Nat.le_refl _)
  intro n
  induction n with
  | zero =>
    intro l hl b hb
    have : l = [] := List.eq_nil_of_length_eq_zero (Nat.le_zero.mp hl)
    subst this
    simp [chunks_nil] at hb
  | succ n ih =>
    intro l hl b hb
    cases l with
    | nil => simp [chunks_nil] at hb
    | cons x xs =>
      rw [chunks_cons] at hb
      rcases List.mem_cons.mp hb with rfl | hb2
      · refine ⟨by simp, ?_⟩
        simp only [List.length_cons, List.length_take]
        omega
      · exact ih (xs.drop (bs - 1))
          (by rw [List.length_drop]; simp at hl; omega) b hb2

theorem chunks_eq_nil_iff {α : Type} (bs : Nat) (l : List α) :
    chunks bs l = [] ↔ l = [] := by
  cases l with
  | nil => simp [chunks_nil]
  | cons x xs => rw [chunks_cons]; simp

theorem chunks_full {α : Type} (bs : Nat) (hbs : 0 < bs) (l : List α) :
    ∀ (l₁ : List (List α)) (b : List α) (l₂ : List (List α)),
      chunks bs l = l₁ ++ b :: l₂ → l₂ ≠ [] → b.length = bs := by
  suffices h : ∀ (n : Nat) (l : List α), l.length ≤ n →
      ∀ (l₁ : List (List α)) (b : List α) (l₂ : List (List α)),
        chunks bs l = l₁ ++ b :: l₂ → l₂ ≠ [] → b.length = bs from
    h l.length l (Nat.le_refl _)
  intro n
  induction n with
  | zero =>
    intro l hl l₁ b l₂ hsplit _
    have : l = [] := List.eq_nil_of_length_eq_zero (Nat.le_zero.mp hl)
    subst this
    rw [chunks_nil] at hsplit
    exact absurd hsplit.symm (List.append_ne_nil_of_right_ne_nil _ (by simp))
  | succ n ih =>
    intro l hl l₁ b l₂ hsplit h₂
    cases l with
    | nil =>
      rw [chunks_nil] at hsplit
      exact absurd hsplit.symm (List.append_ne_nil_of_right_ne_nil _ (by simp))
    | cons x xs =>
      rw [chunks_cons] at hsplit
      cases l₁ with
      | nil =>
        simp only [List.nil_append, List.cons.injEq] at hsplit
        obtain ⟨rfl, hrest⟩ := hsplit
        have hne : chunks bs (xs.drop (bs - 1)) ≠ [] := by
          rw [← hrest] at h₂
          exact h₂
        have hxs : ¬ xs.length ≤ bs - 1 := by
          intro hle
          exact hne ((chunks_eq_nil_iff _ _).mpr (List.drop_eq_nil_of_le hle))
        simp only [List.length_cons, List.length_take]
        omega
      | cons y l₁ =>
        simp only [List.cons_append, List.cons.injEq] at hsplit
        exact ih (xs.drop (bs - 1))
          (by rw [List.length_drop]; simp at hl; omega) l₁ b l₂ hsplit.2 h₂


/-! Section: Claims -/

/-- C1: for every input set of movie records the document assembler produces
exactly one composite document per movie record, so on success the number of
assembled documents equals the number of input movie records. -/
theorem c1_document_count (src : Source) (docs : List CompleteDoc)
    (h : buildAll src = .ok docs) : docs.length = src.movies.length :=
  assembleAll_length _ _ _ h

theorem c1_document_count_witness :
    ([docC5] : List CompleteDoc).length = srcC5.movies.length :=
  c1_document_count srcC5 [docC5] rfl

/-- C6: in the cast assembler's second pass, a character row whose
(movie, person) pair has a cast entry appends its character name to that
entry's list and changes nothing else, while a row with no matching entry
leaves the whole table unchanged; the pass is a total function and never
fails. -/
theorem c6_character_second_pass (d : CastDict) (c : CharacterRow) :
    (lookup2 d c.movie_id c.person_id = none → addChar d c = d) ∧
    (∀ e, lookup2 d c.movie_id c.person_id = some e →
      lookup2 (addChar d c) c.movie_id c.person_id =
        some { e with characters := e.characters ++ [c.name] } ∧
      ∀ mid pid, ¬ (mid = c.movie_id ∧ pid = c.person_id) →
        lookup2 (addChar d c) mid pid = lookup2 d mid pid) := by
  constructor
  · exact addChar_none
  · intro e hmp
    obtain ⟨inner0, hm, hp⟩ := Option.bind_eq_some.mp hmp
    rw [addChar_some hm hp]
    constructor
    · rw [lookup2, lookup_upsert_self, Option.some_bind', lookup_upsert_self]
    · intro mid pid hne
      by_cases hmid : c.movie_id = mid
      · subst hmid
        have hpid : c.person_id ≠ pid := fun hh => hne ⟨rfl, hh.symm⟩
        rw [lookup2, lookup_upsert_self, Option.some_bind',
          lookup_upsert_ne _ _ _ _ hpid, lookup2, hm, Option.some_bind']
      · rw [lookup2, lookup_upsert_ne _ _ _ _ hmid, lookup2]

theorem c6_character_second_pass_witness :
    addChar castD6 ⟨"m9", "p9", "Ghost"⟩ = castD6 ∧
    lookup2 (addChar castD6 ⟨"m1", "p1", "Hero"⟩) "m1" "p1" =
      some ⟨"p1", "A. Actor", ["Hero"]⟩ :=
  ⟨(c6_character_second_pass castD6 ⟨"m9", "p9", "Ghost"⟩).1 rfl,
   ((c6_character_second_pass castD6 ⟨"m1", "p1", "Hero"⟩).2
      ⟨"p1", "A. Actor", []⟩ rfl).1⟩

/-- C7: the rating index is built with plain key assignment, so a ratings
sequence with duplicate movie ids is neither deduplicated nor rejected: the
index maps each movie id to the average/votes of its last-occurring row. -/
theorem c7_rating_last_wins (rows : List RatingRow) (k : String) :
    lookup (ratingsDict rows) k =
      ((rows.filter (fun r => r.movie_id = k)).getLast?).map
        (fun r => (⟨r.average_rating, r.num_votes⟩ : RatingInfo)) :=
  ratingsDict_lookup rows k

/-- C8: the bulk loader first drops the destination collection, then writes
the assembled documents in batches of the constant size 1000 in assembly
order: the batches concatenate back to the full document list, every batch
is nonempty and at most 1000 documents long, every batch except the last is
exactly 1000 documents long, and the destination contents after the run are
exactly the assembled list whatever they were before. -/
theorem c8_bulk_loader (docs store : List CompleteDoc) :
    loaderEvents docs =
      StoreEvent.drop :: (chunks batchSize docs).map StoreEvent.insertMany ∧
    (chunks batchSize docs).flatten = docs ∧
    (∀ b ∈ chunks batchSize docs, b ≠ [] ∧ b.length ≤ batchSize) ∧
    (∀ (l₁ : List (List CompleteDoc)) (b : List CompleteDoc)
        (l₂ : List (List CompleteDoc)),
      chunks batchSize docs = l₁ ++ b :: l₂ → l₂ ≠ [] →
        b.length = batchSize) ∧
    runEvents store (loaderEvents docs) = docs :=
  ⟨rfl, chunks_flatten _ _, chunks_mem_length _ (by decide) _,
   chunks_full _ (by decide) _, runEvents_loader _ _⟩

theorem c8_bulk_loader_witness :
    runEvents [docNoAssoc] (loaderEvents [docC5]) = [docC5] :=
  (c8_bulk_loader [docC5] [docNoAssoc]).2.2.2.2

/-- C9: against a fixed source, the destination contents after a run are a
function of the source alone — any two runs from any prior destination
contents end in the same document list, and rerunning after a completed run
changes nothing. -/
theorem c9_rebuild_idempotent (src : Source) (docs : List CompleteDoc)
    (h : buildAll src = .ok docs) (s₁ s₂ : List CompleteDoc) :
    runPipeline src s₁ = docs ∧
    runPipeline src s₁ = runPipeline src s₂ ∧
    runPipeline src (runPipeline src s₁) = runPipeline src s₁ := by
  have hrun : ∀ s, runPipeline src s = docs := by
    intro s
    unfold runPipeline
    rw [h]
    exact runEvents_loader s docs
  refine ⟨hrun s₁, (hrun s₁).trans (hrun s₂).symm, ?_⟩
  rw [hrun s₁]
  exact hrun docs

theorem c9_rebuild_idempotent_witness :
    runPipeline srcC5 [] = [docC5] ∧
    runPipeline srcC5 (runPipeline srcC5 []) = runPipeline srcC5 [] :=
  ⟨(c9_rebuild_idempotent srcC5 [docC5] rfl [] [docNoAssoc]).1,
   (c9_rebuild_idempotent srcC5 [docC5] rfl [] [docNoAssoc]).2.2⟩


/-! Section: Field equations of an assembled document -/

theorem assembleDoc_fields (ix : Indexes) (m : MovieRow) (d : CompleteDoc)
    (h : assembleDoc ix m = .ok d) :
    d._id = m.movie_id ∧
    d.runtime = m.runtime_minutes ∧
    d.rating = (lookup ix.rd m.movie_id).getD ⟨none, 0⟩ ∧
    d.genres = (lookup ix.gd m.movie_id).getD [] ∧
    d.directors = (lookup ix.dd m.movie_id).getD [] ∧
    d.cast = ((lookup ix.cd m.movie_id).getD []).map Prod.snd ∧
    d.writers = (lookup ix.wd m.movie_id).getD [] := by
  cases ht : m.primary_title with
  | none => simp [assembleDoc, ht] at h
  | some t =>
    cases hy : m.start_year with
    | none => simp [assembleDoc, ht, hy] at h
    | some y =>
      simp only [assembleDoc, ht, hy] at h
      obtain rfl := Except.ok.inj h
      exact ⟨rfl, rfl, rfl, rfl, rfl, rfl, rfl⟩

theorem buildIndexes_rd (src : Source) :
    (buildIndexes src).rd = ratingsDict src.ratings := rfl

theorem buildIndexes_gd (src : Source) :
    (buildIndexes src).gd = genresDict src.genres := rfl

theorem buildIndexes_dd (src : Source) :
    (buildIndexes src).dd = personListDict (personsDict src.persons) src.directors := rfl

theorem buildIndexes_cd (src : Source) :
    (buildIndexes src).cd =
      castDict (personsDict src.persons) src.principals src.characters := rfl

theorem buildIndexes_wd (src : Source) :
    (buildIndexes src).wd = personListDict (personsDict src.persons) src.writers := rfl

/-- C2: in every assembled document, each person id occurs at most once in
the `cast` list, and each cast entry's `characters` list is exactly the
names of the source character rows for that same (movie, person) pair, in
stream order, with no foreign character name. -/
theorem c2_cast_entries (src : Source) (docs : List CompleteDoc)
    (h : buildAll src = .ok docs) (d : CompleteDoc) (hd : d ∈ docs) :
    (d.cast.map CastEntry.person_id).Nodup ∧
    ∀ e ∈ d.cast,
      e.characters =
        (src.characters.filter
          (fun c => c.movie_id = d._id ∧ c.person_id = e.person_id)).map
          (fun c => c.name) := by
  obtain ⟨m, hm, hdoc⟩ := assembleAll_mem _ _ _ h d hd
  obtain ⟨hid, _, _, _, _, hcast, _⟩ := assembleDoc_fields _ _ _ hdoc
  rw [buildIndexes_cd] at hcast
  have hok := castDict_ok (personsDict src.persons) src.principals src.characters
  obtain ⟨hnd, hent⟩ := castEntriesOk_getD _ _ _ hok m.movie_id
  have hmemlk : ∀ kv ∈ (lookup
        (castDict (personsDict src.persons) src.principals src.characters)
        m.movie_id).getD [],
      lookup ((lookup
        (castDict (personsDict src.persons) src.principals src.characters)
        m.movie_id).getD []) kv.1 = some kv.2 := by
    intro kv hkv
    exact lookup_eq_some_of_mem hnd (by rwa [Prod.mk.eta])
  constructor
  · rw [hcast, List.map_map]
    have hmaps :
        ((lookup
          (castDict (personsDict src.persons) src.principals src.characters)
          m.movie_id).getD []).map (CastEntry.person_id ∘ Prod.snd) =
        ((lookup
          (castDict (personsDict src.persons) src.principals src.characters)
          m.movie_id).getD []).map Prod.fst := by
      apply List.map_congr_left
      intro kv hkv
      exact (hent kv.1 kv.2 (hmemlk kv hkv)).1
    rw [hmaps]
    exact hnd
  · intro e he
    rw [hcast] at he
    obtain ⟨kv, hkv, rfl⟩ := List.mem_map.mp he
    obtain ⟨h1, _, h3⟩ := hent kv.1 kv.2 (hmemlk kv hkv)
    rw [hid, h1]
    exact h3

theorem c2_cast_entries_witness :
    (docC5.cast.map CastEntry.person_id).Nodup ∧
    (⟨"p1", "A. Actor", ["Hero", "Narrator"]⟩ : CastEntry).characters =
      (srcC5.characters.filter
        (fun c => c.movie_id = docC5._id ∧
          c.person_id =
            (⟨"p1", "A. Actor", ["Hero", "Narrator"]⟩ : CastEntry).person_id)).map
        (fun c => c.name) :=
  ⟨(c2_cast_entries srcC5 [docC5] rfl docC5 (List.mem_singleton.mpr rfl)).1,
   (c2_cast_entries srcC5 [docC5] rfl docC5 (List.mem_singleton.mpr rfl)).2
     ⟨"p1", "A. Actor", ["Hero", "Narrator"]⟩ (List.mem_singleton.mpr rfl)⟩

/-- C3: a movie with no row in an association relation still gets the
corresponding document field, holding its defined default: rating
`{average: null, votes: 0}` and empty sequences for genres, directors, cast
and writers. -/
theorem c3_missing_assoc_defaults (src : Source) (docs : List CompleteDoc)
    (h : buildAll src = .ok docs) (i : Nat) (hi : i < src.movies.length)
    (hd : i < docs.length) :
    ((∀ r ∈ src.ratings,
        r.movie_id ≠ (src.movies.get ⟨i, hi⟩).movie_id) →
      (docs.get ⟨i, hd⟩).rating = ⟨none, 0⟩) ∧
    ((∀ g ∈ src.genres,
        g.movie_id ≠ (src.movies.get ⟨i, hi⟩).movie_id) →
      (docs.get ⟨i, hd⟩).genres = []) ∧
    ((∀ r ∈ src.directors,
        r.movie_id ≠ (src.movies.get ⟨i, hi⟩).movie_id) →
      (docs.get ⟨i, hd⟩).directors = []) ∧
    ((∀ p ∈ src.principals,
        p.movie_id ≠ (src.movies.get ⟨i, hi⟩).movie_id) →
      (docs.get ⟨i, hd⟩).cast = []) ∧
    ((∀ w ∈ src.writers,
        w.movie_id ≠ (src.movies.get ⟨i, hi⟩).movie_id) →
      (docs.get ⟨i, hd⟩).writers = []) := by
  have hget := assembleAll_get _ _ _ h i hi hd
  obtain ⟨_, _, hrat, hgen, hdir, hcast, hwr⟩ := assembleDoc_fields _ _ _ hget
  refine ⟨?_, ?_, ?_, ?_, ?_⟩
  · intro hno
    rw [hrat, buildIndexes_rd, ratingsDict_lookup,
      List.filter_eq_nil_iff.mpr (fun r hr => by simpa using hno r hr)]
    rfl
  · intro hno
    have := genresDict_getD src.genres (src.movies.get ⟨i, hi⟩).movie_id
    rw [hgen, buildIndexes_gd, this,
      List.filter_eq_nil_iff.mpr (fun g hg => by simpa using hno g hg)]
    rfl
  · intro hno
    have := personListDict_getD (personsDict src.persons) src.directors
      (src.movies.get ⟨i, hi⟩).movie_id
    rw [hdir, buildIndexes_dd, this,
      List.filter_eq_nil_iff.mpr (fun r hr => by simpa using hno r hr)]
    rfl
  · intro hno
    rw [hcast, buildIndexes_cd, castDict_lookup_none _ _ _ _ hno]
    rfl
  · intro hno
    have := personListDict_getD (personsDict src.persons) src.writers
      (src.movies.get ⟨i, hi⟩).movie_id
    rw [hwr, buildIndexes_wd, this,
      List.filter_eq_nil_iff.mpr (fun w hw => by simpa using hno w hw)]
    rfl

theorem c3_missing_assoc_defaults_witness :
    ([docNoAssoc].get ⟨0, by decide⟩).rating = ⟨none, 0⟩ ∧
    ([docNoAssoc].get ⟨0, by decide⟩).genres = [] ∧
    ([docNoAssoc].get ⟨0, by decide⟩).directors = [] ∧
    ([docNoAssoc].get ⟨0, by decide⟩).cast = [] ∧
    ([docNoAssoc].get ⟨0, by decide⟩).writers = [] := by
  have h := c3_missing_assoc_defaults srcNoAssoc [docNoAssoc] rfl 0
    (by decide) (by decide)
  exact ⟨h.1 (by intro r hr; simp [srcNoAssoc] at hr),
    h.2.1 (by intro g hg; simp [srcNoAssoc] at hg),
    h.2.2.1 (by intro r hr; simp [srcNoAssoc] at hr),
    h.2.2.2.1 (by intro p hp; simp [srcNoAssoc] at hp),
    h.2.2.2.2 (by intro w hw; simp [srcNoAssoc] at hw)⟩


/-- C4: a person id referenced from directors, principals, or writers with no
row in the persons relation resolves to the sentinel name Unknown (resolution
is total, it never fails), and the referencing row is kept: it still yields a
director/cast/writer entry, carrying the name Unknown. -/
theorem c4_unknown_person (src : Source) (pid : String)
    (hp : ∀ p ∈ src.persons, p.person_id ≠ pid) :
    resolve (personsDict src.persons) pid = "Unknown" ∧
    ∀ docs, buildAll src = .ok docs → ∀ d ∈ docs,
      (∀ r ∈ src.directors, r.movie_id = d._id → r.person_id = pid →
        (⟨pid, "Unknown"⟩ : PersonRef) ∈ d.directors) ∧
      (∀ w ∈ src.writers, w.movie_id = d._id → w.person_id = pid →
        (⟨pid, "Unknown"⟩ : PersonRef) ∈ d.writers) ∧
      (∀ p ∈ src.principals, p.movie_id = d._id → p.person_id = pid →
        pid ∈ d.cast.map CastEntry.person_id ∧
        ∀ e ∈ d.cast, e.person_id = pid → e.name = "Unknown") := by
  have hres : resolve (personsDict src.persons) pid = "Unknown" :=
    resolve_not_mem _ _ hp
  refine ⟨hres, ?_⟩
  intro docs h d hd
  obtain ⟨m, hm, hdoc⟩ := assembleAll_mem _ _ _ h d hd
  obtain ⟨hid, _, _, _, hdir, hcast, hwr⟩ := assembleDoc_fields _ _ _ hdoc
  rw [buildIndexes_dd, personListDict_getD] at hdir
  rw [buildIndexes_wd, personListDict_getD] at hwr
  rw [buildIndexes_cd] at hcast
  have hok := castDict_ok (personsDict src.persons) src.principals src.characters
  obtain ⟨hnd, hent⟩ := castEntriesOk_getD _ _ _ hok m.movie_id
  refine ⟨?_, ?_, ?_⟩
  · intro r hr hrm hrp
    rw [hdir]
    refine List.mem_map.mpr
      ⟨r, List.mem_filter.mpr ⟨hr, by simp [hrm, hid]⟩, ?_⟩
    rw [hrp, hres]
  · intro w hw hwm hwp
    rw [hwr]
    refine List.mem_map.mpr
      ⟨w, List.mem_filter.mpr ⟨hw, by simp [hwm, hid]⟩, ?_⟩
    rw [hwp, hres]
  · intro p hpmem hpm hpp
    have hsome := castDict_principal_isSome (personsDict src.persons)
      src.principals src.characters p hpmem
    rw [hpm, hid, hpp] at hsome
    obtain ⟨e, he⟩ := Option.isSome_iff_exists.mp hsome
    obtain ⟨inner, hin, hlk⟩ := Option.bind_eq_some.mp he
    have hgetd :
        (lookup
          (castDict (personsDict src.persons) src.principals src.characters)
          m.movie_id).getD [] = inner := by
      rw [hin]
      rfl
    rw [hgetd] at hnd hent
    obtain ⟨h1, h2, _⟩ := hent pid e hlk
    constructor
    · rw [hcast, hgetd]
      exact List.mem_map.mpr
        ⟨e, List.mem_map.mpr ⟨(pid, e), mem_of_lookup_eq_some hlk, rfl⟩, h1⟩
    · intro e2 he2 hpe2
      rw [hcast, hgetd] at he2
      obtain ⟨kv, hkv, rfl⟩ := List.mem_map.mp he2
      have hlk2 := lookup_eq_some_of_mem hnd
        (show (kv.1, kv.2) ∈ inner by rwa [Prod.mk.eta])
      obtain ⟨h1k, h2k, _⟩ := hent kv.1 kv.2 hlk2
      calc kv.2.name = resolve (personsDict src.persons) kv.1 := h2k
        _ = resolve (personsDict src.persons) pid := by
              rw [h1k.symm.trans hpe2]
        _ = "Unknown" := hres

theorem c4_unknown_person_witness :
    resolve (personsDict srcOrphan.persons) "p9" = "Unknown" ∧
    (⟨"p9", "Unknown"⟩ : PersonRef) ∈ docOrphan.directors ∧
    (⟨"p9", "Unknown"⟩ : PersonRef) ∈ docOrphan.writers ∧
    ("p9" : String) ∈ docOrphan.cast.map CastEntry.person_id := by
  have h := c4_unknown_person srcOrphan "p9"
    (by intro p hp; simp [srcOrphan] at hp)
  have h2 := h.2 [docOrphan] rfl docOrphan (List.mem_singleton.mpr rfl)
  exact ⟨h.1,
    h2.1 ⟨"m2", "p9"⟩ (List.mem_singleton.mpr rfl) rfl rfl,
    h2.2.1 ⟨"m2", "p9"⟩ (List.mem_singleton.mpr rfl) rfl rfl,
    (h2.2.2 ⟨"m2", "p9"⟩ (List.mem_singleton.mpr rfl) rfl rfl).1⟩

/-- C10: document assembly raises, aborting the build with the destination
untouched, exactly when some movie record lacks primary_title or start_year;
a record lacking only runtime_minutes assembles fine, with runtime null
(copied from the record's absent field). -/
theorem c10_required_fields (src : Source) :
    ((∃ m ∈ src.movies, m.primary_title = none ∨ m.start_year = none) ↔
      ∃ e, buildAll src = .error e) ∧
    ((∃ e, buildAll src = .error e) → ∀ store, runPipeline src store = store) ∧
    (∀ docs, buildAll src = .ok docs →
      ∀ i (hi : i < src.movies.length) (hd : i < docs.length),
        (docs.get ⟨i, hd⟩).runtime =
          (src.movies.get ⟨i, hi⟩).runtime_minutes) := by
  have hba : buildAll src = assembleAll (buildIndexes src) src.movies := rfl
  have hok := assembleAll_ok_iff (buildIndexes src) src.movies
  refine ⟨⟨?_, ?_⟩, ?_, ?_⟩
  · rintro ⟨m, hm, hbad⟩
    cases hb : buildAll src with
    | error e => exact ⟨e, rfl⟩
    | ok ds =>
      rw [hba] at hb
      have hgood := hok.mp ⟨ds, hb⟩ m hm
      rcases hbad with hb1 | hb1
      · exact absurd hb1 hgood.1
      · exact absurd hb1 hgood.2
  · rintro ⟨e, he⟩
    by_contra hno
    push_neg at hno
    obtain ⟨ds, hds⟩ := hok.mpr hno
    rw [hba, hds] at he
    exact Except.noConfusion he
  · rintro ⟨e, he⟩ store
    unfold runPipeline
    rw [he]
  · intro docs hdocs i hi hd
    exact (assembleDoc_fields _ _ _ (assembleAll_get _ _ _ hdocs i hi hd)).2.1

theorem c10_required_fields_witness :
    ([docNoAssoc].get ⟨0, by decide⟩).runtime =
      (srcNoAssoc.movies.get ⟨0, by decide⟩).runtime_minutes :=
  (c10_required_fields srcNoAssoc).2.2 [docNoAssoc] rfl 0 (by decide) (by decide)

/-- C5 (counterexample): at the spec's concrete one-movie scenario the
pipeline's document carries the destination key under the field name _id,
not id, so the claimed document — bit-exact in field names, with key field
id — is not what the pipeline produces. -/
theorem c5_concrete_scenario_counterexample :
    ¬ (buildAll srcC5).map (fun ds => ds.map CompleteDoc.toValue) =
      .ok [claimedValueC5] := by
  intro hcl
  have hbuilt : (buildAll srcC5).map (fun ds => ds.map CompleteDoc.toValue) =
      .ok [docC5.toValue] := rfl
  rw [hbuilt] at hcl
  have h1 : [docC5.toValue] = [claimedValueC5] := Except.ok.inj hcl
  have h2 : docC5.toValue = claimedValueC5 := (List.cons.inj h1).1
  have h3 := congrArg Value.keys h2
  have hL : (docC5.toValue).keys =
      ["_id", "title", "year", "runtime", "rating", "genres", "directors",
        "cast", "writers"] := rfl
  have hR : claimedValueC5.keys =
      ["id", "title", "year", "runtime", "rating", "genres", "directors",
        "cast", "writers"] := rfl
  rw [hL, hR] at h3
  have h4 : ("_id" : String) = "id" := (List.cons.inj h3).1
  exact absurd h4 (by decide)

/-- C5 (amended): at the spec's concrete one-movie scenario the pipeline
produces exactly the claimed document and nothing else — same field names in
the same order and same values — except that the document key field is named
_id rather than id. -/
theorem c5_concrete_scenario :
    (buildAll srcC5).map (fun ds => ds.map CompleteDoc.toValue) =
      .ok [builtValueC5] ∧
    runPipeline srcC5 [] = [docC5] :=
  ⟨rfl, rfl⟩

end CineExplorer
